import Mathlib

/-!
Shallow embedding of the event-data reshaping pipeline of
`msticnb/nb/azsent/host/win_host_events.py` (the `WinHostEvents`
notebooklet): account normalization, the Activity × Account count pivot,
the account-management taxonomy filter, per-row XML payload absorption and
batch expansion, and the `run` / `expand_events` orchestration.

Pandas dataframes are modelled as lists of records; dataframe column views
are association lists from column name to string value; machine behaviour
such as `df.apply(..., axis=1)` becomes `List.map`, boolean-mask filtering
becomes `List.filter`, and in-place mutation of a row object becomes
explicit state passing.
-/

namespace WinHostEvents

/-! ## String utilities

`str.split(sep)[-1]` and substring containment from Python, embedded as
structural recursion over the character list of a `String`. -/

/-- Python `str.split(c)`: split a character list on every occurrence of
`c`, keeping empty segments (`"a\\".split("\\") == ["a", ""]`,
`"".split("\\") == [""]`). -/
def splitOnChar (c : Char) : List Char → List (List Char)
  | [] => [[]]
  | x :: xs =>
    match splitOnChar c xs with
    | [] => [[]]
    | h :: t => if x = c then [] :: h :: t else (x :: h) :: t

/-- Joining the segments back with the separator; used to state that
`splitOnChar` really is a separation of the string. -/
def joinSegs (c : Char) : List (List Char) → List Char
  | [] => []
  | [s] => s
  | s :: r :: t => s ++ c :: joinSegs c (r :: t)

/-- The last segment of the split, i.e. Python `s.split(c)[-1]`. -/
def lastSegChars (c : Char) (l : List Char) : List Char :=
  ((splitOnChar c l).getLast?).getD []

/-- Python `s.split("\\")[-1]` on a `String`. -/
def lastSeg (s : String) : String :=
  String.mk (lastSegChars '\\' s.data)

/-- Does the needle match at the head of the haystack? -/
def startsWithList : List Char → List Char → Bool
  | [], _ => true
  | _ :: _, [] => false
  | n :: ns, h :: hs => n = h && startsWithList ns hs

/-- Substring containment over character lists. -/
def hasSubList (needle : List Char) : List Char → Bool
  | [] => startsWithList needle []
  | c :: cs => startsWithList needle (c :: cs) || hasSubList needle cs

/-- Python `needle in hay` / pandas `.str.contains(needle)` (the literal
`"scheduled task"` has no regex metacharacters, so regex and substring
match coincide). -/
def strContains (hay needle : String) : Bool :=
  hasSubList needle.data hay.data

/-! ## Account normalization

From `_get_win_security_events` / `_create_acct_event_pivot`:

    win_events_acc = win_events_acc.replace("-\\-", "No Account").replace(
        {"Account": ""}, value="No Account")
    win_events_acc["Account"] = win_events_acc.apply(
        lambda x: x.Account.split("\\")[-1], axis=1)

The first `replace` is frame-wide (exact cell match on every column, in
particular also on `Activity`); the second applies to the `Account`
column only; then the split keeps the last backslash segment. -/

/-- The frame-wide `replace("-\\-", "No Account")` on one cell. -/
def replPlaceholder (s : String) : String :=
  if s = "-\\-" then "No Account" else s

/-- The Account-only `replace({"Account": ""}, value="No Account")`. -/
def replEmptyAcct (s : String) : String :=
  if s = "" then "No Account" else s

/-- The complete per-cell account normalization performed by the pivot
builders: placeholder replacement, empty replacement, then
`split("\\")[-1]`. -/
def normAccount (s : String) : String :=
  lastSeg (replEmptyAcct (replPlaceholder s))

/-! ## Data model -/

/-- The outcome of handing one row's `EventData` cell to
`defusedxml.ElementTree.fromstring` plus the `findall` over namespaced
`Data` elements.  The XML library is an external collaborator, so its
outcome is abstracted: `notStr` is the `TypeError` raised on a non-string
payload, `malformed` the `ParseError` on invalid XML, and `parsed ps` a
successful parse yielding the `(Name attribute, text)` pairs of the `Data`
elements in document order. -/
inductive XmlPayload where
  | notStr : XmlPayload
  | malformed : XmlPayload
  | parsed : List (String × String) → XmlPayload
deriving DecidableEq

/-- One row of the security-event dataframe.  The typed fields mirror the
columns consumed by the filter and pivot code; `cols` is the row's full
`Series` view (column name ↦ string value, empty string for a blank cell)
that `_parse_event_data_row` reads and writes. -/
structure EventRecord where
  eventID : Int
  activity : String
  account : String
  timeGenerated : Int
  eventData : XmlPayload
  cols : List (String × String)
deriving DecidableEq

/-- One row of the static `WinSecurityEvent.json` taxonomy table. -/
structure TaxRow where
  event_id : Int
  subcategory : String
  description : String
deriving DecidableEq

/-- The three-column projection `[["Account", "Activity", "TimeGenerated"]]`
after normalization, i.e. one row of `win_events_acc`. -/
structure AcctRow where
  activity : String
  account : String
  timeGenerated : Int
deriving DecidableEq

/-- The pivot dataframe returned by `pd.pivot_table(...).fillna(0)`:
row labels are the distinct `Activity` values, column labels the distinct
`Account` values, and each cell holds the (never-null) count for its
(activity, account) pair.  Pandas additionally sorts the labels; the
claims under verification are about label *sets* and cell values, so the
model keeps first-occurrence order. -/
structure PivotTable where
  rowLabels : List String
  colLabels : List String
  cell : String → String → Nat

/-! ## Pivot builder -/

/-- Normalization of one projected row: the frame-wide
`replace("-\\-", "No Account")` touches both `Account` and `Activity`
cells, the empty-account replacement and the backslash split touch only
`Account`. -/
def normalizeAcctRow (r : EventRecord) : AcctRow :=
  { activity := replPlaceholder r.activity
    account := normAccount r.account
    timeGenerated := r.timeGenerated }

/-- The pivot construction shared verbatim by `_get_win_security_events`
and `_create_acct_event_pivot`: project and normalize, then
`pd.pivot_table(values="TimeGenerated", index=["Activity"],
columns=["Account"], aggfunc="count").fillna(0)`. -/
def eventAccountPivot (l : List EventRecord) : PivotTable :=
  let n := l.map normalizeAcctRow
  { rowLabels := (n.map (·.activity)).dedup
    colLabels := (n.map (·.account)).dedup
    cell := fun a b => n.countP (fun r => r.activity == a && r.account == b) }

/-- `_create_acct_event_pivot` (identical construction, applied to the
account-management subset). -/
def createAcctEventPivot (account_event_data : List EventRecord) : PivotTable :=
  eventAccountPivot account_event_data

/-- Sum of every count cell of the pivot. -/
def pivotTotal (p : PivotTable) : Nat :=
  (p.rowLabels.map (fun a => (p.colLabels.map (fun b => p.cell a b)).sum)).sum

/-! ## Event filter (`_extract_acct_mgmt_events`) -/

/-- The row selector built from the taxonomy table:
`acct_sel | group_sel | schtask_sel` in the source. -/
def interestingTaxRow (t : TaxRow) : Bool :=
  t.subcategory == "User Account Management"
    || t.subcategory == "Security Group Management"
    || (t.subcategory == "Other Object Access Events"
        && strContains t.description "scheduled task")

/-- `event_list`: the selected taxonomy identifiers with the service
install event `7045` appended. -/
def eventList (tax : List TaxRow) : List Int :=
  ((tax.filter interestingTaxRow).map (·.event_id)) ++ [7045]

/-- `_extract_acct_mgmt_events`: boolean-mask filter
`event_data[event_data["EventID"].isin(event_list)]`. -/
def extractAcctMgmtEvents (tax : List TaxRow) (event_data : List EventRecord) :
    List EventRecord :=
  event_data.filter (fun e => decide (e.eventID ∈ eventList tax))

/-- The spec's description of the interesting-identifier set, written
independently of the code: subcategory exactly "User Account Management"
or "Security Group Management", or "Other Object Access Events" with a
description containing "scheduled task", plus the fixed identifier 7045. -/
def SpecInteresting (tax : List TaxRow) (eid : Int) : Prop :=
  (∃ t ∈ tax, t.event_id = eid ∧
    (t.subcategory = "User Account Management"
      ∨ t.subcategory = "Security Group Management"
      ∨ (t.subcategory = "Other Object Access Events"
          ∧ strContains t.description "scheduled task" = true)))
  ∨ eid = 7045

instance (tax : List TaxRow) (eid : Int) : Decidable (SpecInteresting tax eid) := by
  unfold SpecInteresting; infer_instance

/-! ## Payload expansion (`_parse_event_data_row`, `_parse_eventdata`,
`_expand_event_properties`) -/

/-- Python `dict` insertion: an existing key keeps its position and gets
the new value, a fresh key is appended. -/
def dictInsert (d : List (String × String)) (k v : String) :
    List (String × String) :=
  if (d.map (·.1)).contains k then
    d.map (fun p => if p.1 = k then (k, v) else p)
  else d ++ [(k, v)]

/-- The dict comprehension `{elem.attrib["Name"]: elem.text for elem in
xdoc.findall(...)}`: later duplicates override earlier values. -/
def dictOfPairs (ps : List (String × String)) : List (String × String) :=
  ps.foldl (fun d p => dictInsert d p.1 p.2) []

/-- `row[key]` on the Series view (first matching column). -/
def rowLookup (cols : List (String × String)) (k : String) : Option String :=
  (cols.find? (fun p => p.1 == k)).map (·.2)

/-- `row[key] = val` on the Series view. -/
def rowUpdate (cols : List (String × String)) (k v : String) :
    List (String × String) :=
  cols.map (fun p => if p.1 = k then (k, v) else p)

/-- The absorption loop of `_parse_event_data_row`:

    for key, val in col_dict.items():
        if key in row and not row[key]:
            row[key] = val
            reassigned.add(key)

Row values are strings, so `key in row and not row[key]` is "the row has
column `key` and its value is the empty string".  Returns the updated row
view and the reassigned keys. -/
def absorbLoop (cols : List (String × String)) :
    List (String × String) → List (String × String) × List String
  | [] => (cols, [])
  | (k, v) :: rest =>
    if rowLookup cols k = some "" then
      let out := absorbLoop (rowUpdate cols k v) rest
      (out.1, k :: out.2)
    else absorbLoop cols rest

/-- `_parse_event_data_row`: parse the payload, absorb values into empty
existing columns, pop the reassigned keys from the dict; a `ParseError`
or `TypeError` yields `None` and leaves the row untouched. -/
def parseEventDataRow (r : EventRecord) :
    EventRecord × Option (List (String × String)) :=
  match r.eventData with
  | .parsed ps =>
    let d := dictOfPairs ps
    let out := absorbLoop r.cols d
    ({ r with cols := out.1 },
      some (d.filter (fun p => ¬ out.2.contains p.1)))
  | _ => (r, none)

/-- The `event_ids` argument of `_parse_eventdata` / `expand_events`,
mirroring Python's `Optional[Union[int, Iterable[int]]]`. -/
inductive EventIds where
  | noneV : EventIds
  | single : Int → EventIds
  | listV : List Int → EventIds
deriving DecidableEq

/-- Python truthiness of the `event_ids` argument (`if event_ids:`):
`None`, `0` and `[]` are falsy. -/
def EventIds.truthy : EventIds → Bool
  | .noneV => false
  | .single n => n != 0
  | .listV l => !l.isEmpty

/-- The row selection at the head of `_parse_eventdata`: a truthy
`event_ids` restricts to rows whose `EventID` is in the given set (a bare
int is wrapped in a singleton list); otherwise all rows are kept. -/
def selectEvents (event_data : List EventRecord) (ids : EventIds) :
    List EventRecord :=
  if ids.truthy then
    let idList := match ids with
      | .single n => [n]
      | .listV l => l
      | .noneV => []
    event_data.filter (fun e => decide (e.eventID ∈ idList))
  else event_data

/-- The per-row parsing stage of `_parse_eventdata`:
`src_event_data["EventProperties"] = src_event_data.apply(
_parse_event_data_row, axis=1)` — each row is processed independently;
the row's updated view is paired with its (possibly absent) parsed
properties. -/
def parseStage (rows : List EventRecord) :
    List (EventRecord × Option (List (String × String))) :=
  rows.map parseEventDataRow

/-- Keys of a row's attached (possibly absent) parsed-properties mapping;
a `None` value explodes to an empty `pd.Series`, contributing no column. -/
def dictKeys (d : Option (List (String × String))) : List String :=
  match d with
  | none => []
  | some l => l.map (·.1)

/-- Lookup in the parsed-properties dict. -/
def dictLookup (d : List (String × String)) (k : String) : Option String :=
  (d.find? (fun p => p.1 == k)).map (·.2)

/-- The column set of `exp_df = input_df.apply(lambda x:
pd.Series(x.EventProperties), axis=1)`: the union of payload keys over
the batch (modelled up to column order, which no claim depends on). -/
def expColumns (rs : List (EventRecord × Option (List (String × String)))) :
    List String :=
  (rs.flatMap (fun r => dictKeys r.2)).dedup

/-- The column set of `input_df` (the union of the rows' column names;
in a dataframe every row shares the same columns). -/
def origColumns (rs : List (EventRecord × Option (List (String × String)))) :
    List String :=
  (rs.flatMap (fun r => r.1.cols.map (·.1))).dedup

/-- `exp_df.drop(set(input_df.columns).intersection(exp_df.columns),
axis=1)`: the payload-derived columns that survive are the ones that do
not collide with an original column. -/
def droppedExpCols (rs : List (EventRecord × Option (List (String × String)))) :
    List String :=
  (expColumns rs).filter (fun c => ¬ (origColumns rs).contains c)

/-- Column set of the merge: surviving payload columns first, then the
original columns minus the `EventProperties` column dropped before the
merge. -/
def mergedColumns (rs : List (EventRecord × Option (List (String × String)))) :
    List String :=
  droppedExpCols rs ++ (origColumns rs).filter (fun c => c ≠ "EventProperties")

/-- One merged cell, with `.replace("", np.nan)` already applied: a
payload-side cell reads the row's dict, an original-side cell reads the
row's column view; an empty string or an absent value is a missing-value
marker (`none`). -/
def cellN (rs : List (EventRecord × Option (List (String × String))))
    (r : EventRecord × Option (List (String × String))) (c : String) :
    Option String :=
  let raw :=
    if (droppedExpCols rs).contains c then
      match r.2 with
      | none => none
      | some d => dictLookup d c
    else rowLookup r.1.cols c
  match raw with
  | some "" => none
  | x => x

/-- `.dropna(axis=1, how="all")`: keep a column only if some row has a
non-missing value in it. -/
def keptColumns (rs : List (EventRecord × Option (List (String × String)))) :
    List String :=
  (mergedColumns rs).filter (fun c => rs.any (fun r => (cellN rs r c).isSome))

/-- One output row of the merged frame after the final `.fillna("")`. -/
def expandRow (rs : List (EventRecord × Option (List (String × String))))
    (r : EventRecord × Option (List (String × String))) :
    List (String × String) :=
  (keptColumns rs).map (fun c => (c, (cellN rs r c).getD ""))

/-- `_expand_event_properties`: explode the dicts into columns, drop the
colliding payload columns, merge by row identity, blank out empty
strings, drop all-empty columns, refill with empty strings. -/
def expandEventProperties
    (rs : List (EventRecord × Option (List (String × String)))) :
    List (List (String × String)) :=
  rs.map (expandRow rs)

/-- `_parse_eventdata`: select rows by `event_ids`, parse each row's
payload, expand the parsed properties into columns. -/
def parseEventdata (event_data : List EventRecord) (event_ids : EventIds) :
    List (List (String × String)) :=
  expandEventProperties (parseStage (selectEvents event_data event_ids))

/-! ## Orchestrator (`WinHostEvents.run`, `WinHostEvents.expand_events`) -/

/-- A `TimeSpan`; the pipeline never inspects it, it is only forwarded to
the query provider. -/
structure TimeSpan where
  start : Int
  period : Int
deriving DecidableEq

/-- `MsticnbMissingParameterError`. -/
inductive NBError where
  | missingParameter : String → NBError
deriving DecidableEq

/-- The query provider collaborator:
`qry_prov.WindowsSecurity.list_host_events(timespan, host_name=...)`. -/
def QueryProv := TimeSpan → String → List EventRecord

/-- The provider call of `_get_win_security_events`, with the
`add_query_items="| where EventID != 4688 and EventID != 4624"` clause
modelled as the equivalent filter on the provider's rows. -/
def listHostEvents (qry : QueryProv) (ts : TimeSpan) (host : String) :
    List EventRecord :=
  (qry ts host).filter (fun e => e.eventID != 4688 && e.eventID != 4624)

/-- `_get_win_security_events`: fetch the events and build the
event/account pivot. -/
def getWinSecurityEvents (qry : QueryProv) (host : String) (ts : TimeSpan) :
    List EventRecord × PivotTable :=
  let all := listHostEvents qry ts host
  (all, eventAccountPivot all)

/-- `WinHostEventsResult` (the display-only timeline attribute is
omitted; no claim mentions it). -/
structure WinHostEventsResult where
  all_events : Option (List EventRecord) := none
  event_pivot : Option PivotTable := none
  account_events : Option (List EventRecord) := none
  account_pivot : Option PivotTable := none
  expanded_events : Option (List (List (String × String))) := none

/-- The notebooklet instance state: the `_last_result` attribute.
Modelled from the spec: the base-class initialisation of `_last_result`
is not under `src/`; per the spec's orchestrator state machine it is
absent (`none`) until a successful `run` stores a result. -/
structure NBState where
  lastResult : Option WinHostEventsResult := none

/-- `WinHostEvents.run`.  The base-class `super().run(...)` prelude is
not under `src/`; modelled from the spec: it resolves the option set and
performs no query and no mutation of the stored last result, so it is
the identity on the state here.  Then the source checks `value` and
`timespan` (raising `MsticnbMissingParameterError` — note the literal
`"timespan."` argument), fetches events, always builds the event pivot,
and computes the option-gated artefacts before storing the result. -/
def run (st : NBState) (qry : QueryProv) (tax : List TaxRow) (value : String)
    (timespan : Option TimeSpan) (options : List String) :
    NBState × Except NBError WinHostEventsResult :=
  if value = "" then (st, .error (.missingParameter "value"))
  else
    match timespan with
    | none => (st, .error (.missingParameter "timespan."))
    | some ts =>
      let fetched := getWinSecurityEvents qry value ts
      let base : WinHostEventsResult :=
        { all_events := some fetched.1, event_pivot := some fetched.2 }
      let r1 :=
        if options.contains "acct_events" then
          let acct := extractAcctMgmtEvents tax fetched.1
          { base with
              account_events := some acct
              account_pivot := some (createAcctEventPivot acct) }
        else base
      let r2 :=
        if options.contains "expand_events" then
          { r1 with expanded_events := some (parseEventdata fetched.1 .noneV) }
        else r1
      ({ st with lastResult := some r2 }, .ok r2)

/-- The guidance printed by `expand_events` when no prior run stored a
result (the two arguments of the `print` call). -/
def expandGuidance : List String :=
  ["Please use 'run()' to fetch the data before using this method.",
   "\nThen call 'expand_events()'"]

/-- `WinHostEvents.expand_events`: if there is no last result, or the
last result has no raw events, print guidance and return `None`;
otherwise re-run payload expansion on the stored raw events restricted by
`event_ids`.  Returns the emitted messages and the (optional) frame. -/
def expandEvents (st : NBState) (event_ids : EventIds) :
    List String × Option (List (List (String × String))) :=
  match st.lastResult with
  | none => (expandGuidance, none)
  | some r =>
    match r.all_events with
    | none => (expandGuidance, none)
    | some evts => ([], some (parseEventdata evts event_ids))

/-! ## Concrete sample data used by witnesses -/

/-- A concrete sample event: a service-install event. -/
def sampleEvent : EventRecord :=
  ⟨7045, "A service was installed in the system", "alice", 1, .notStr, []⟩

/-- A concrete post-run result holding `sampleEvent`. -/
def sampleResult : WinHostEventsResult :=
  ⟨some [sampleEvent], none, none, none, none⟩

/-- The concrete row of the spec's absorption scenario: an empty
`TargetUserName` column and a payload carrying
`<Data Name="TargetUserName">bob</Data>`. -/
def c3Row : EventRecord :=
  ⟨4720, "A user account was created", "x", 1,
    .parsed [("TargetUserName", "bob")],
    [("Account", "x"), ("TargetUserName", "")]⟩

/-! ## Lemmas about `splitOnChar` -/

lemma splitOnChar_ne_nil (c : Char) (l : List Char) : splitOnChar c l ≠ [] := by
  cases l with
  | nil => simp [splitOnChar]
  | cons x xs =>
    cases hsp : splitOnChar c xs with
    | nil => simp [splitOnChar, hsp]
    | cons h1 t => by_cases hx : x = c <;> simp [splitOnChar, hsp, hx]

lemma splitOnChar_cons (c x : Char) (xs : List Char) (h1 : List Char)
    (t : List (List Char)) (hsp : splitOnChar c xs = h1 :: t) :
    splitOnChar c (x :: xs) = if x = c then [] :: h1 :: t else (x :: h1) :: t := by
  rw [splitOnChar, hsp]

lemma joinSegs_splitOnChar (c : Char) (l : List Char) :
    joinSegs c (splitOnChar c l) = l := by
  induction l with
  | nil => simp [splitOnChar, joinSegs]
  | cons x xs ih =>
    cases hsp : splitOnChar c xs with
    | nil => exact absurd hsp (splitOnChar_ne_nil c xs)
    | cons h1 t =>
      rw [hsp] at ih
      by_cases hx : x = c
      · subst hx
        simp [splitOnChar, hsp, joinSegs, ih]
      · cases t with
        | nil => simp_all [splitOnChar, hsp, hx, joinSegs]
        | cons t0 ts => simp_all [splitOnChar, hsp, hx, joinSegs]

lemma splitOnChar_of_not_mem (c : Char) (l : List Char) (h : c ∉ l) :
    splitOnChar c l = [l] := by
  induction l with
  | nil => simp [splitOnChar]
  | cons x xs ih =>
    have hx : x ≠ c := fun e => h (e ▸ List.mem_cons_self x xs)
    have hxs : c ∉ xs := fun m => h (List.mem_cons_of_mem _ m)
    simp [splitOnChar, ih hxs, hx]

lemma not_mem_of_mem_splitOnChar (c : Char) (l : List Char) :
    ∀ s ∈ splitOnChar c l, c ∉ s := by
  induction l with
  | nil => simp [splitOnChar]
  | cons x xs ih =>
    cases hsp : splitOnChar c xs with
    | nil => exact absurd hsp (splitOnChar_ne_nil c xs)
    | cons h1 t =>
      rw [hsp] at ih
      intro s hs
      by_cases hx : x = c
      · subst hx
        simp only [splitOnChar, hsp, if_pos rfl] at hs
        rcases List.mem_cons.mp hs with rfl | hs'
        · simp
        · exact ih s hs'
      · simp only [splitOnChar, hsp, if_neg hx] at hs
        rcases List.mem_cons.mp hs with rfl | hs'
        · intro hc
          rcases List.mem_cons.mp hc with rfl | hc'
          · exact hx rfl
          · exact ih h1 (List.mem_cons_self h1 t) hc'
        · exact ih s (List.mem_cons_of_mem _ hs')

lemma mem_of_getLast?_eq_some {α : Type} {l : List α} {a : α}
    (h : l.getLast? = some a) : a ∈ l := by
  obtain ⟨hne, rfl⟩ := List.mem_getLast?_eq_getLast (l := l) (x := a) h
  exact List.getLast_mem hne

lemma not_mem_lastSegChars (c : Char) (l : List Char) :
    c ∉ lastSegChars c l := by
  unfold lastSegChars
  cases hl : (splitOnChar c l).getLast? with
  | none => simp
  | some s =>
    simp only [Option.getD_some]
    exact not_mem_of_mem_splitOnChar c l s (mem_of_getLast?_eq_some hl)

lemma lastSegChars_ne_nil (c : Char) (l : List Char) (h0 : l ≠ [])
    (h : l.getLast? ≠ some c) : lastSegChars c l ≠ [] := by
  induction l with
  | nil => exact absurd rfl h0
  | cons x xs ih =>
    cases xs with
    | nil =>
      have hx : x ≠ c := fun e => h (by simp [e])
      simp [lastSegChars, splitOnChar, hx]
    | cons y ys =>
      have hlast : (y :: ys).getLast? ≠ some c := by
        rwa [List.getLast?_cons_cons] at h
      have ihx := ih (by simp) hlast
      cases hsp : splitOnChar c (y :: ys) with
      | nil => exact absurd hsp (splitOnChar_ne_nil c _)
      | cons h1 t =>
        rw [lastSegChars, hsp] at ihx
        rw [lastSegChars, splitOnChar_cons c x (y :: ys) h1 t hsp]
        by_cases hx : x = c
        · rw [if_pos hx, List.getLast?_cons_cons]
          exact ihx
        · rw [if_neg hx]
          cases t with
          | nil => simp
          | cons t0 ts =>
            rw [List.getLast?_cons_cons] at ihx ⊢
            exact ihx

lemma lastSeg_of_no_backslash (s : String) (h : '\\' ∉ s.data) :
    lastSeg s = s := by
  apply String.ext
  simp [lastSeg, lastSegChars, splitOnChar_of_not_mem _ _ h]

/-! ## Claim C5 -/

/-- **C5.** For every raw account string, normalization outputs the fixed
sentinel `"No Account"` when the string equals the domain-separator
placeholder `"-\\-"` or is empty, and otherwise outputs the last
backslash-separated segment of the string (the bare username); the
segments joined back on the separator reconstitute the original string. -/
theorem claim_C5 (s : String) :
    ((s = "-\\-" ∨ s = "") → normAccount s = "No Account")
    ∧ (s ≠ "-\\-" → s ≠ "" → normAccount s = lastSeg s)
    ∧ joinSegs '\\' (splitOnChar '\\' s.data) = s.data := by
  refine ⟨?_, ?_, joinSegs_splitOnChar '\\' s.data⟩
  · rintro (rfl | rfl) <;> decide
  · intro h1 h2
    unfold normAccount replEmptyAcct replPlaceholder
    rw [if_neg h1, if_neg h2]

/-- Witness for C5 at the concrete inputs `"DOMAIN\\alice"` and
`"-\\-"`. -/
theorem claim_C5_witness :
    normAccount "DOMAIN\\alice" = lastSeg "DOMAIN\\alice"
    ∧ normAccount "-\\-" = "No Account" :=
  ⟨(claim_C5 "DOMAIN\\alice").2.1 (by decide) (by decide),
   (claim_C5 "-\\-").1 (Or.inl rfl)⟩

/-! ## Claim C9 -/

/-- **C9 counterexample.** Normalization is not idempotent: the input
`"a\\"` (a string ending in the domain separator) normalizes to the empty
string, and normalizing again yields `"No Account"`. -/
theorem claim_C9_cex :
    normAccount (normAccount "a\\") ≠ normAccount "a\\" := by decide

/-- **C9 (amended).** Account normalization is idempotent on every string
that does not end with a backslash; only strings ending in the separator
(whose last split segment is empty, so a second pass maps it to the
`"No Account"` sentinel) break idempotence. -/
theorem claim_C9_amended (s : String) (h : s.data.getLast? ≠ some '\\') :
    normAccount (normAccount s) = normAccount s := by
  by_cases h1 : s = "-\\-"
  · subst h1; decide
  · by_cases h2 : s = ""
    · subst h2; decide
    · have e1 : normAccount s = lastSeg s := by
        unfold normAccount replEmptyAcct replPlaceholder
        rw [if_neg h1, if_neg h2]
      have hdata : s.data ≠ [] := by
        intro e
        exact h2 (String.ext (by simp [e]))
      have hne : lastSegChars '\\' s.data ≠ [] :=
        lastSegChars_ne_nil '\\' s.data hdata h
      have hnm : '\\' ∉ lastSegChars '\\' s.data :=
        not_mem_lastSegChars '\\' s.data
      rw [e1]
      have hls : lastSeg s = String.mk (lastSegChars '\\' s.data) := rfl
      have hne1 : lastSeg s ≠ "-\\-" := by
        rw [hls]
        intro e
        have : lastSegChars '\\' s.data = ['-', '\\', '-'] :=
          congrArg String.data e
        exact hnm (by rw [this]; simp)
      have hne2 : lastSeg s ≠ "" := by
        rw [hls]
        intro e
        exact hne (congrArg String.data e)
      have e2 : normAccount (lastSeg s) = lastSeg (lastSeg s) := by
        unfold normAccount replEmptyAcct replPlaceholder
        rw [if_neg hne1, if_neg hne2]
      rw [e2]
      exact lastSeg_of_no_backslash (lastSeg s) hnm

/-- Witness for the amended C9 at the concrete input `"DOMAIN\\alice"`. -/
theorem claim_C9_witness :
    ("DOMAIN\\alice" : String).data.getLast? ≠ some '\\'
    ∧ normAccount (normAccount "DOMAIN\\alice") = normAccount "DOMAIN\\alice" :=
  ⟨by decide, claim_C9_amended "DOMAIN\\alice" (by decide)⟩

/-! ## Claim C6 -/

/-- **C6.** `run` fails with a missing-parameter error naming the missing
field whenever the target identity (`value`) is empty or the time range
(`timespan`) is absent; the failure is immediate: the state (in
particular the stored last result) is unchanged and the outcome does not
depend on the query provider, so no query is issued and no result is
computed. -/
theorem claim_C6 (st : NBState) (q1 q2 : QueryProv) (tax : List TaxRow)
    (value : String) (ts : Option TimeSpan) (opts : List String) :
    (value = "" →
      run st q1 tax value ts opts = (st, .error (.missingParameter "value")))
    ∧ (value ≠ "" → ts = none →
      run st q1 tax value ts opts = (st, .error (.missingParameter "timespan.")))
    ∧ ((value = "" ∨ ts = none) →
      run st q1 tax value ts opts = run st q2 tax value ts opts) := by
  refine ⟨?_, ?_, ?_⟩
  · intro h; simp [run, h]
  · intro h1 h2; subst h2; simp [run, h1]
  · rintro (h | h)
    · simp [run, h]
    · subst h
      by_cases h1 : value = "" <;> simp [run, h1]

/-- Witness for C6: empty host name and absent timespan, at concrete
inputs. -/
theorem claim_C6_witness :
    run ⟨none⟩ (fun _ _ => []) [] "" none []
      = (⟨none⟩, .error (.missingParameter "value"))
    ∧ run ⟨none⟩ (fun _ _ => []) [] "myhost" none []
      = (⟨none⟩, .error (.missingParameter "timespan.")) :=
  ⟨(claim_C6 ⟨none⟩ (fun _ _ => []) (fun _ _ => []) [] "" none []).1 rfl,
   (claim_C6 ⟨none⟩ (fun _ _ => []) (fun _ _ => []) [] "myhost" none []).2.1
     (by decide) rfl⟩

/-! ## Claim C7 -/

/-- **C7.** Calling `expand_events` before any successful run (no stored
last result) does not fail: it returns the non-empty user-facing guidance
messages and an absent (`none`) result. -/
theorem claim_C7 (st : NBState) (ids : EventIds) (h : st.lastResult = none) :
    expandEvents st ids = (expandGuidance, none) ∧ expandGuidance ≠ [] := by
  constructor
  · simp [expandEvents, h]
  · simp [expandGuidance]

/-- Witness for C7 on the freshly initialised state. -/
theorem claim_C7_witness :
    expandEvents ⟨none⟩ .noneV = (expandGuidance, none)
    ∧ expandGuidance ≠ [] :=
  claim_C7 ⟨none⟩ .noneV rfl

/-! ## Claim C10 -/

/-- **C10.** After a successful run, calling `expand_events` with an
empty list of event identifiers, or with the falsy integer `0`, behaves
exactly like passing no identifiers at all: the restriction is ignored
and all stored events are expanded; only a non-empty (truthy) identifier
collection restricts the processed rows to the matching ones. -/
theorem claim_C10 (st : NBState) (r : WinHostEventsResult)
    (evts : List EventRecord) (h1 : st.lastResult = some r)
    (h2 : r.all_events = some evts) :
    expandEvents st (.listV []) = expandEvents st .noneV
    ∧ expandEvents st (.single 0) = expandEvents st .noneV
    ∧ expandEvents st .noneV = ([], some (parseEventdata evts .noneV))
    ∧ selectEvents evts (.listV []) = evts
    ∧ selectEvents evts (.single 0) = evts
    ∧ selectEvents evts .noneV = evts
    ∧ (∀ l : List Int, l ≠ [] →
        selectEvents evts (.listV l)
          = evts.filter (fun e => decide (e.eventID ∈ l))) := by
  refine ⟨?_, ?_, ?_, ?_, ?_, ?_, ?_⟩
  · simp [expandEvents, h1, h2, parseEventdata, selectEvents, EventIds.truthy]
  · simp [expandEvents, h1, h2, parseEventdata, selectEvents, EventIds.truthy]
  · simp [expandEvents, h1, h2]
  · simp [selectEvents, EventIds.truthy]
  · simp [selectEvents, EventIds.truthy]
  · simp [selectEvents, EventIds.truthy]
  · intro l hl
    simp [selectEvents, EventIds.truthy, List.isEmpty_eq_false.mpr hl]

/-- Witness for C10 on a concrete state holding one stored event. -/
theorem claim_C10_witness :
    expandEvents ⟨some sampleResult⟩ (.listV [])
      = expandEvents ⟨some sampleResult⟩ .noneV
    ∧ selectEvents [sampleEvent] (.single 0) = [sampleEvent] :=
  ⟨(claim_C10 ⟨some sampleResult⟩ sampleResult [sampleEvent] rfl rfl).1,
   (claim_C10 ⟨some sampleResult⟩ sampleResult [sampleEvent]
     rfl rfl).2.2.2.2.1⟩

/-! ## Claim C2 -/

/-- **C2.** The account-management filter returns exactly the input rows,
in input order, whose event identifier is in the interesting set
(taxonomy subcategory exactly "User Account Management" or "Security
Group Management", or "Other Object Access Events" with a description
containing "scheduled task", plus the fixed service-install identifier
7045); in particular the output is a sublist (hence subset) of the
input. -/
theorem claim_C2 (tax : List TaxRow) (evts : List EventRecord) :
    (extractAcctMgmtEvents tax evts).Sublist evts
    ∧ extractAcctMgmtEvents tax evts
        = evts.filter (fun e => decide (SpecInteresting tax e.eventID)) := by
  constructor
  · exact List.filter_sublist evts
  · apply List.filter_congr
    intro e _
    apply decide_eq_decide.mpr
    unfold eventList SpecInteresting interestingTaxRow
    simp only [List.mem_append, List.mem_map, List.mem_filter,
      List.mem_singleton, Bool.or_eq_true, Bool.and_eq_true, beq_iff_eq]
    constructor
    · rintro (⟨t, ⟨ht, hsel⟩, hid⟩ | h)
      · exact Or.inl ⟨t, ht, hid, by tauto⟩
      · exact Or.inr h
    · rintro (⟨t, ht, hid, hsel⟩ | h)
      · exact Or.inl ⟨t, ⟨ht, by tauto⟩, hid⟩
      · exact Or.inr h

/-! ## Counting lemmas for the pivot -/

lemma sum_map_add {β : Type} (B : List β) (f g : β → Nat) :
    (B.map (fun b => f b + g b)).sum = (B.map f).sum + (B.map g).sum := by
  induction B with
  | nil => simp
  | cons b bs ih => simp [ih]; omega

lemma sum_map_indicator_zero {β : Type} [DecidableEq β] (B : List β) (y : β)
    (c : Nat) (h : y ∉ B) :
    (B.map (fun b => if y = b then c else 0)).sum = 0 := by
  induction B with
  | nil => simp
  | cons b bs ih =>
    have hb : y ≠ b := fun e => h (e ▸ List.mem_cons_self b bs)
    have hbs : y ∉ bs := fun m => h (List.mem_cons_of_mem _ m)
    simp [hb, ih hbs]

lemma sum_map_indicator {β : Type} [DecidableEq β] (B : List β) (hB : B.Nodup)
    (y : β) (c : Nat) (hy : y ∈ B) :
    (B.map (fun b => if y = b then c else 0)).sum = c := by
  induction B with
  | nil => cases hy
  | cons b bs ih =>
    rcases List.mem_cons.mp hy with rfl | hmem
    · have hout : y ∉ bs := (List.nodup_cons.mp hB).1
      simp [sum_map_indicator_zero bs y c hout]
    · have hb : y ≠ b := by
        rintro rfl
        exact (List.nodup_cons.mp hB).1 hmem
      simp [hb, ih (List.nodup_cons.mp hB).2 hmem]

lemma sum_double_indicator {A B : List String} (hA : A.Nodup) (hB : B.Nodup)
    {x y : String} (hx : x ∈ A) (hy : y ∈ B) :
    (A.map (fun a =>
      (B.map (fun b => if x = a ∧ y = b then 1 else 0)).sum)).sum = 1 := by
  have inner : ∀ a,
      (B.map (fun b => if x = a ∧ y = b then 1 else 0)).sum
        = if x = a then 1 else 0 := by
    intro a
    by_cases hxa : x = a
    · subst hxa
      simp only [true_and, if_pos rfl]
      exact sum_map_indicator B hB y 1 hy
    · simp [hxa]
  rw [List.map_congr_left (fun a _ => inner a)]
  exact sum_map_indicator A hA x 1 hx

lemma pivot_double_count (A B : List String) (hA : A.Nodup) (hB : B.Nodup) :
    ∀ l : List AcctRow, (∀ r ∈ l, r.activity ∈ A) → (∀ r ∈ l, r.account ∈ B) →
      (A.map (fun a => (B.map (fun b =>
        l.countP (fun r => r.activity == a && r.account == b))).sum)).sum
      = l.length := by
  intro l
  induction l with
  | nil => intro _ _; simp
  | cons r t ih =>
    intro h1 h2
    have hr1 := h1 r (List.mem_cons_self r t)
    have hr2 := h2 r (List.mem_cons_self r t)
    have ht1 : ∀ x ∈ t, x.activity ∈ A :=
      fun x hx => h1 x (List.mem_cons_of_mem _ hx)
    have ht2 : ∀ x ∈ t, x.account ∈ B :=
      fun x hx => h2 x (List.mem_cons_of_mem _ hx)
    have step : ∀ a b,
        (r :: t).countP (fun x => x.activity == a && x.account == b)
          = t.countP (fun x => x.activity == a && x.account == b)
            + if r.activity = a ∧ r.account = b then 1 else 0 := by
      intro a b
      rw [List.countP_cons]
      congr 1
      simp only [Bool.and_eq_true, beq_iff_eq]
    have stepB : ∀ a,
        (B.map (fun b =>
          (r :: t).countP (fun x => x.activity == a && x.account == b))).sum
        = (B.map (fun b =>
            t.countP (fun x => x.activity == a && x.account == b))).sum
          + (B.map (fun b =>
              if r.activity = a ∧ r.account = b then 1 else 0)).sum := by
      intro a
      rw [List.map_congr_left (fun b _ => step a b), sum_map_add]
    rw [List.map_congr_left (fun a _ => stepB a), sum_map_add,
      ih ht1 ht2, sum_double_indicator hA hB hr1 hr2]
    simp

/-! ## Claim C1 -/

/-- **C1.** For every input list of event records, the sum of all count
cells of the activity-by-account pivot built by `_create_acct_event_pivot`
equals the number of input records (normalization maps records one-to-one),
and each cell counts exactly the records whose normalized (activity,
account) pair matches the cell's labels. -/
theorem claim_C1 (l : List EventRecord) :
    pivotTotal (createAcctEventPivot l) = l.length
    ∧ ∀ a b, (createAcctEventPivot l).cell a b
        = l.countP (fun r => (normalizeAcctRow r).activity == a
            && (normalizeAcctRow r).account == b) := by
  constructor
  · have key := pivot_double_count
      ((l.map normalizeAcctRow).map (·.activity)).dedup
      ((l.map normalizeAcctRow).map (·.account)).dedup
      (List.nodup_dedup _) (List.nodup_dedup _)
      (l.map normalizeAcctRow)
      (fun r hr => List.mem_dedup.mpr (List.mem_map_of_mem _ hr))
      (fun r hr => List.mem_dedup.mpr (List.mem_map_of_mem _ hr))
    simpa [pivotTotal, createAcctEventPivot, eventAccountPivot] using key
  · intro a b
    simp only [createAcctEventPivot, eventAccountPivot, List.countP_map]
    rfl

/-! ## Claim C8 -/

/-- **C8 counterexample.** The pivot's row labels are *not* always the
distinct raw activity values of the input: the frame-wide
`replace("-\\-", "No Account")` also rewrites an `Activity` cell equal to
the placeholder, so for an input record whose activity is literally
`"-\\-"` that value is absent from the row labels. -/
theorem claim_C8_cex :
    "-\\-" ∈ ([⟨4720, "-\\-", "alice", 1, .notStr, []⟩]
        : List EventRecord).map (·.activity)
    ∧ "-\\-" ∉
      (createAcctEventPivot [⟨4720, "-\\-", "alice", 1, .notStr, []⟩]).rowLabels
      := by
  constructor
  · decide
  · decide

/-- **C8 (amended).** In every pivot produced by the pivot builder, the
row-label set is exactly the set of distinct activity values observed in
the input *after the placeholder replacement* (`"-\\-" ↦ "No Account"`,
which the frame-wide `replace` applies to the activity column too), the
column-label set is exactly the set of distinct normalized account
values, and every (activity, account) combination with no matching
record has the integer cell value 0 — the cell function is total, so no
combination is null/absent. -/
theorem claim_C8_amended (l : List EventRecord) :
    (∀ a, a ∈ (createAcctEventPivot l).rowLabels
      ↔ a ∈ l.map (fun r => replPlaceholder r.activity))
    ∧ (∀ b, b ∈ (createAcctEventPivot l).colLabels
      ↔ b ∈ l.map (fun r => normAccount r.account))
    ∧ (∀ a b, a ∈ (createAcctEventPivot l).rowLabels →
        b ∈ (createAcctEventPivot l).colLabels →
        (∀ r ∈ l, ¬(replPlaceholder r.activity = a
          ∧ normAccount r.account = b)) →
        (createAcctEventPivot l).cell a b = 0) := by
  refine ⟨?_, ?_, ?_⟩
  · intro a
    simp [createAcctEventPivot, eventAccountPivot, List.mem_dedup,
      List.map_map, normalizeAcctRow, Function.comp]
  · intro b
    simp [createAcctEventPivot, eventAccountPivot, List.mem_dedup,
      List.map_map, normalizeAcctRow, Function.comp]
  · intro a b _ _ hno
    simp only [createAcctEventPivot, eventAccountPivot, List.countP_map]
    rw [List.countP_eq_zero]
    intro r hr
    simp only [Function.comp, normalizeAcctRow, Bool.and_eq_true, beq_iff_eq]
    exact fun h => hno r hr ⟨h.1, h.2⟩

/-- Witness for the amended C8 on a two-record input with a missing
(activity, account) combination. -/
theorem claim_C8_witness :
    "A user account was created" ∈
      (createAcctEventPivot [⟨4720, "A user account was created", "x", 1,
        .notStr, []⟩, ⟨4732, "A member was added", "DOM\\y", 2, .notStr,
        []⟩]).rowLabels
    ∧ (createAcctEventPivot [⟨4720, "A user account was created", "x", 1,
        .notStr, []⟩, ⟨4732, "A member was added", "DOM\\y", 2, .notStr,
        []⟩]).cell "A user account was created" "y" = 0 := by
  refine ⟨?_, ?_⟩
  · exact (claim_C8_amended _).1 _ |>.mpr (by decide)
  · exact (claim_C8_amended _).2.2 "A user account was created" "y"
      ((claim_C8_amended _).1 _ |>.mpr (by decide))
      ((claim_C8_amended _).2.1 _ |>.mpr (by decide))
      (by decide)

/-! ## Claim C4 -/

/-- **C4.** In the per-row parsing stage of payload expansion, a row
whose payload is malformed XML or not a string yields a `none`
parsed-properties marker and an unchanged row; no exception is possible
(the stage is a total function) and every row of the batch — in
particular every other row — is processed independently of the rest. -/
theorem claim_C4 (rows : List EventRecord) (i : Nat) (hi : i < rows.length)
    (hi2 : i < (parseStage rows).length)
    (hbad : (rows.get ⟨i, hi⟩).eventData = .malformed
      ∨ (rows.get ⟨i, hi⟩).eventData = .notStr) :
    ((parseStage rows).get ⟨i, hi2⟩).2 = none
    ∧ ((parseStage rows).get ⟨i, hi2⟩).1 = rows.get ⟨i, hi⟩
    ∧ ∀ (j : Nat) (hj : j < rows.length) (hj2 : j < (parseStage rows).length),
        (parseStage rows).get ⟨j, hj2⟩ = parseEventDataRow (rows.get ⟨j, hj⟩) := by
  have hmap : ∀ (j : Nat) (hj : j < rows.length)
      (hj2 : j < (parseStage rows).length),
      (parseStage rows).get ⟨j, hj2⟩
        = parseEventDataRow (rows.get ⟨j, hj⟩) := by
    intro j hj hj2
    simp [parseStage]
  refine ⟨?_, ?_, hmap⟩ <;> rw [hmap i hi hi2] <;>
    rcases hbad with h | h <;>
    · simp only [List.get_eq_getElem] at h
      simp [parseEventDataRow, h]

/-- Witness for C4: a malformed row followed by a well-formed one. -/
theorem claim_C4_witness :
    ((parseStage [⟨1, "A", "x", 1, .malformed, []⟩,
        ⟨2, "B", "y", 2, .parsed [("K", "w")], []⟩]).get
      ⟨0, by simp [parseStage]⟩).2 = none :=
  (claim_C4 [⟨1, "A", "x", 1, .malformed, []⟩,
    ⟨2, "B", "y", 2, .parsed [("K", "w")], []⟩] 0 (by simp)
    (by simp [parseStage]) (Or.inl (by decide))).1

/-! ## Lemmas about row updates, the payload dict and the absorption
loop -/

lemma rowLookup_cons (p : String × String) (ps : List (String × String))
    (k : String) :
    rowLookup (p :: ps) k = if p.1 = k then some p.2 else rowLookup ps k := by
  unfold rowLookup
  by_cases hp : p.1 = k
  · rw [List.find?_cons_of_pos _ (by simp [hp]), if_pos hp]
    rfl
  · rw [List.find?_cons_of_neg _ (by simp [hp]), if_neg hp]

lemma rowUpdate_cons (p : String × String) (ps : List (String × String))
    (k v : String) :
    rowUpdate (p :: ps) k v
      = (if p.1 = k then (k, v) else p) :: rowUpdate ps k v := rfl

lemma rowLookup_rowUpdate_self (cols : List (String × String)) (k v w : String)
    (h : rowLookup cols k = some w) :
    rowLookup (rowUpdate cols k v) k = some v := by
  induction cols with
  | nil => simp [rowLookup] at h
  | cons p ps ih =>
    rw [rowUpdate_cons]
    by_cases hp : p.1 = k
    · rw [if_pos hp, rowLookup_cons]
      simp
    · rw [if_neg hp, rowLookup_cons, if_neg hp]
      rw [rowLookup_cons, if_neg hp] at h
      exact ih h

lemma rowLookup_rowUpdate_ne (cols : List (String × String)) (k k' v : String)
    (h : k' ≠ k) :
    rowLookup (rowUpdate cols k' v) k = rowLookup cols k := by
  induction cols with
  | nil => simp [rowLookup, rowUpdate]
  | cons p ps ih =>
    rw [rowUpdate_cons, rowLookup_cons, rowLookup_cons]
    by_cases hp : p.1 = k'
    · have hpk : p.1 ≠ k := by rw [hp]; exact h
      rw [if_pos hp]
      simp only [if_neg h, if_neg hpk]
      exact ih
    · rw [if_neg hp]
      by_cases hpk : p.1 = k
      · simp only [if_pos hpk]
      · simp only [if_neg hpk]
        exact ih

lemma keys_rowUpdate (cols : List (String × String)) (k v : String) :
    (rowUpdate cols k v).map (·.1) = cols.map (·.1) := by
  unfold rowUpdate
  rw [List.map_map]
  apply List.map_congr_left
  intro p _
  by_cases hp : p.1 = k <;> simp [hp]

lemma absorbLoop_keys (d : List (String × String)) :
    ∀ cols, (absorbLoop cols d).1.map (·.1) = cols.map (·.1) := by
  induction d with
  | nil => intro cols; simp [absorbLoop]
  | cons p rest ih =>
    intro cols
    obtain ⟨k0, v0⟩ := p
    by_cases hc : rowLookup cols k0 = some ""
    · simp only [absorbLoop, if_pos hc]
      rw [ih (rowUpdate cols k0 v0), keys_rowUpdate]
    · simp only [absorbLoop, if_neg hc]
      exact ih cols

lemma absorbLoop_lookup_of_not_mem (d : List (String × String)) (k : String)
    (h : k ∉ d.map (·.1)) :
    ∀ cols, rowLookup (absorbLoop cols d).1 k = rowLookup cols k := by
  induction d with
  | nil => intro cols; simp [absorbLoop]
  | cons p rest ih =>
    intro cols
    obtain ⟨k0, v0⟩ := p
    have hk0 : k0 ≠ k := by
      intro e
      exact h (by simp [e])
    have hrest : k ∉ rest.map (·.1) := by
      intro m
      exact h (by simp [m])
    by_cases hc : rowLookup cols k0 = some ""
    · simp only [absorbLoop, if_pos hc]
      rw [ih hrest (rowUpdate cols k0 v0), rowLookup_rowUpdate_ne _ _ _ _ hk0]
    · simp only [absorbLoop, if_neg hc]
      exact ih hrest cols

lemma absorbLoop_absorbs (k v : String) :
    ∀ (d : List (String × String)), (d.map (·.1)).Nodup → (k, v) ∈ d →
    ∀ cols, rowLookup cols k = some "" →
      rowLookup (absorbLoop cols d).1 k = some v
      ∧ (absorbLoop cols d).2.contains k = true := by
  intro d
  induction d with
  | nil => intro _ hmem; cases hmem
  | cons p rest ih =>
    intro hnd hmem cols hcols
    obtain ⟨k0, v0⟩ := p
    have hndt : (rest.map (·.1)).Nodup := (List.nodup_cons.mp hnd).2
    have hhead : k0 ∉ rest.map (·.1) := (List.nodup_cons.mp hnd).1
    rcases List.mem_cons.mp hmem with heq | hmem'
    · injection heq with hk hv
      subst hk
      subst hv
      simp only [absorbLoop, if_pos hcols]
      constructor
      · rw [absorbLoop_lookup_of_not_mem rest k hhead]
        exact rowLookup_rowUpdate_self cols k v _ hcols
      · simp
    · have hk0 : k0 ≠ k := by
        rintro rfl
        exact hhead (List.mem_map_of_mem (·.1) hmem')
      by_cases hc : rowLookup cols k0 = some ""
      · simp only [absorbLoop, if_pos hc]
        have hcols' : rowLookup (rowUpdate cols k0 v0) k = some "" := by
          rw [rowLookup_rowUpdate_ne _ _ _ _ hk0]; exact hcols
        have := ih hndt hmem' (rowUpdate cols k0 v0) hcols'
        refine ⟨this.1, ?_⟩
        have h2 : k ∈ (absorbLoop (rowUpdate cols k0 v0) rest).2 := by
          simpa using this.2
        simp [h2]
      · simp only [absorbLoop, if_neg hc]
        exact ih hndt hmem' cols hcols

lemma keys_dictInsert (d : List (String × String)) (k v : String) :
    (dictInsert d k v).map (·.1)
      = if (d.map (·.1)).contains k then d.map (·.1)
        else d.map (·.1) ++ [k] := by
  unfold dictInsert
  by_cases h : (d.map (·.1)).contains k
  · rw [if_pos h, if_pos h, List.map_map]
    apply List.map_congr_left
    intro p _
    by_cases hp : p.1 = k <;> simp [hp]
  · rw [if_neg h, if_neg h, List.map_append]
    rfl

lemma dict_keys_nodup_aux :
    ∀ (ps acc : List (String × String)), (acc.map (·.1)).Nodup →
      ((ps.foldl (fun d p => dictInsert d p.1 p.2) acc).map (·.1)).Nodup := by
  intro ps
  induction ps with
  | nil => intro acc h; exact h
  | cons p rest ih =>
    intro acc h
    simp only [List.foldl_cons]
    apply ih
    rw [keys_dictInsert]
    by_cases hc : (acc.map (·.1)).contains p.1
    · rwa [if_pos hc]
    · rw [if_neg hc]
      have hnm : p.1 ∉ acc.map (·.1) := by
        simpa using hc
      simp [List.nodup_append, h, hnm]

lemma dictOfPairs_keys_nodup (ps : List (String × String)) :
    ((dictOfPairs ps).map (·.1)).Nodup :=
  dict_keys_nodup_aux ps [] (by simp)

lemma mem_of_dictLookup (d : List (String × String)) (k v : String)
    (h : dictLookup d k = some v) : (k, v) ∈ d := by
  unfold dictLookup at h
  cases hf : d.find? (fun p => p.1 == k) with
  | none => simp [hf] at h
  | some p =>
    have hm := List.mem_of_find?_eq_some hf
    have hp := List.find?_some hf
    rw [hf] at h
    simp at h
    have hk : p.1 = k := by simpa using hp
    have : p = (k, v) := by
      obtain ⟨p1, p2⟩ := p
      simp only at hk h
      rw [hk, h]
    rwa [this] at hm

/-! ## Lemmas about the batch expansion columns -/

lemma mem_origColumns
    (rs : List (EventRecord × Option (List (String × String))))
    (pr : EventRecord × Option (List (String × String))) (k : String)
    (hpr : pr ∈ rs) (hk : k ∈ pr.1.cols.map (·.1)) :
    k ∈ origColumns rs := by
  unfold origColumns
  rw [List.mem_dedup, List.mem_flatMap]
  exact ⟨pr, hpr, hk⟩

lemma not_mem_droppedExpCols
    (rs : List (EventRecord × Option (List (String × String)))) (k : String)
    (hk : k ∈ origColumns rs) : k ∉ droppedExpCols rs := by
  unfold droppedExpCols
  rw [List.mem_filter]
  rintro ⟨-, hdec⟩
  simp at hdec
  exact hdec hk

lemma count_mergedColumns
    (rs : List (EventRecord × Option (List (String × String)))) (k : String)
    (hk : k ∈ origColumns rs) (hne : k ≠ "EventProperties") :
    (mergedColumns rs).count k = 1 := by
  unfold mergedColumns
  rw [List.count_append]
  have h1 : (droppedExpCols rs).count k = 0 :=
    List.count_eq_zero.mpr (not_mem_droppedExpCols rs k hk)
  have hnodup : ((origColumns rs).filter (fun c => c ≠ "EventProperties")).Nodup :=
    (List.nodup_dedup _).filter _
  have hmem : k ∈ (origColumns rs).filter (fun c => c ≠ "EventProperties") := by
    rw [List.mem_filter]
    exact ⟨hk, by simp [hne]⟩
  rw [h1, List.count_eq_one_of_mem hnodup hmem]

lemma rowLookup_map_pair (f : String → String) (ks : List String) (k : String)
    (h : k ∈ ks) :
    rowLookup (ks.map (fun c => (c, f c))) k = some (f k) := by
  induction ks with
  | nil => cases h
  | cons c cs ih =>
    rw [List.map_cons, rowLookup_cons]
    by_cases hc : c = k
    · subst hc
      rw [if_pos rfl]
    · rw [if_neg hc]
      exact ih ((List.mem_cons.mp h).resolve_left (fun e => hc e.symm))

lemma names_expandRow
    (rs : List (EventRecord × Option (List (String × String))))
    (r : EventRecord × Option (List (String × String))) :
    (expandRow rs r).map (·.1) = keptColumns rs := by
  unfold expandRow
  rw [List.map_map]
  have hcomp : ((fun x : String × String => x.1)
      ∘ fun c => (c, (cellN rs r c).getD "")) = id := rfl
  rw [hcomp, List.map_id]

lemma count_filter_pos (a : String) (p : String → Bool) (h : p a = true)
    (l : List String) : (l.filter p).count a = l.count a := by
  induction l with
  | nil => rfl
  | cons x xs ih =>
    by_cases hx : p x = true
    · rw [List.filter_cons_of_pos hx, List.count_cons, List.count_cons, ih]
    · rw [List.filter_cons_of_neg hx, List.count_cons, ih]
      have hax : ¬(x == a) = true := by
        intro e
        rw [show x = a from by simpa using e] at hx
        exact hx h
      rw [if_neg hax, Nat.add_zero]

lemma cellN_of_orig
    (rs : List (EventRecord × Option (List (String × String))))
    (r : EventRecord × Option (List (String × String))) (k v : String)
    (hnd : k ∉ droppedExpCols rs) (hlk : rowLookup r.1.cols k = some v)
    (hv : v ≠ "") : cellN rs r k = some v := by
  have hc : ¬((droppedExpCols rs).contains k = true) := fun hc =>
    hnd (by simpa using hc)
  unfold cellN
  simp only [if_neg hc, hlk]
  split
  · next heq => exact absurd (by injection heq) hv
  · rfl

/-! ## Claim C3 -/

/-- **C3.** During payload expansion, for every row whose payload parses
to a key/value mapping, a payload key `k` that already exists as a column
of the row with an empty (falsy) value, and whose payload value `v` is
non-empty, is absorbed: the per-row parse overwrites the row's column `k`
with `v` and removes `k` from the attached mapping, and in the expanded
batch output the row carries `v` in the original column `k`, which occurs
exactly once (it is not duplicated as a separate payload-derived
column). -/
theorem claim_C3 (rows : List EventRecord) (i : Nat) (hi : i < rows.length)
    (ps : List (String × String)) (k v : String)
    (hparsed : (rows.get ⟨i, hi⟩).eventData = .parsed ps)
    (hkv : dictLookup (dictOfPairs ps) k = some v)
    (hv : v ≠ "")
    (hcol : rowLookup (rows.get ⟨i, hi⟩).cols k = some "")
    (hk : k ≠ "EventProperties")
    (hi2 : i < (expandEventProperties (parseStage rows)).length) :
    rowLookup (parseEventDataRow (rows.get ⟨i, hi⟩)).1.cols k = some v
    ∧ (∀ p ∈ (parseEventDataRow (rows.get ⟨i, hi⟩)).2.getD [], p.1 ≠ k)
    ∧ rowLookup ((expandEventProperties (parseStage rows)).get ⟨i, hi2⟩) k
        = some v
    ∧ (((expandEventProperties (parseStage rows)).get ⟨i, hi2⟩).map
        (·.1)).count k = 1 := by
  have habs := absorbLoop_absorbs k v (dictOfPairs ps)
    (dictOfPairs_keys_nodup ps) (mem_of_dictLookup _ k v hkv)
    (rows.get ⟨i, hi⟩).cols hcol
  have hpr1 : (parseEventDataRow (rows.get ⟨i, hi⟩)).1.cols
      = (absorbLoop (rows.get ⟨i, hi⟩).cols (dictOfPairs ps)).1 := by
    unfold parseEventDataRow
    rw [hparsed]
  have hpr2 : (parseEventDataRow (rows.get ⟨i, hi⟩)).2
      = some ((dictOfPairs ps).filter
          (fun p => ¬ (absorbLoop (rows.get ⟨i, hi⟩).cols
            (dictOfPairs ps)).2.contains p.1)) := by
    unfold parseEventDataRow
    rw [hparsed]
  have hlk1 : rowLookup (parseEventDataRow (rows.get ⟨i, hi⟩)).1.cols k
      = some v := by
    rw [hpr1]
    exact habs.1
  have hpop : ∀ p ∈ (parseEventDataRow (rows.get ⟨i, hi⟩)).2.getD [],
      p.1 ≠ k := by
    rw [hpr2]
    intro p hp hpk
    simp only [Option.getD_some, List.mem_filter] at hp
    have h2 := hp.2
    rw [hpk] at h2
    simp only [decide_eq_true_eq] at h2
    exact h2 habs.2
  -- batch-level facts
  have hget : (parseStage rows).get
      ⟨i, by simpa [parseStage] using hi⟩
      = parseEventDataRow (rows.get ⟨i, hi⟩) := by
    simp [parseStage]
  have hmem_rs : parseEventDataRow (rows.get ⟨i, hi⟩) ∈ parseStage rows := by
    rw [← hget]
    exact List.get_mem _ _ _
  have hkcols : k ∈ (parseEventDataRow (rows.get ⟨i, hi⟩)).1.cols.map (·.1) := by
    rw [hpr1]
    have : k ∈ (rows.get ⟨i, hi⟩).cols.map (·.1) := by
      unfold rowLookup at hcol
      cases hf : (rows.get ⟨i, hi⟩).cols.find? (fun p => p.1 == k) with
      | none => rw [hf] at hcol; simp at hcol
      | some p =>
        have hm := List.mem_of_find?_eq_some hf
        have hpk : p.1 = k := by simpa using List.find?_some hf
        exact hpk ▸ List.mem_map_of_mem (·.1) hm
    simpa [absorbLoop_keys] using this
  have hkOrig : k ∈ origColumns (parseStage rows) :=
    mem_origColumns _ _ k hmem_rs hkcols
  have hkNotDropped : k ∉ droppedExpCols (parseStage rows) :=
    not_mem_droppedExpCols _ k hkOrig
  have hcell : cellN (parseStage rows) (parseEventDataRow (rows.get ⟨i, hi⟩)) k
      = some v := cellN_of_orig _ _ k v hkNotDropped hlk1 hv
  have hany : (parseStage rows).any
      (fun r => (cellN (parseStage rows) r k).isSome) = true := by
    rw [List.any_eq_true]
    exact ⟨parseEventDataRow (rows.get ⟨i, hi⟩), hmem_rs, by rw [hcell]; rfl⟩
  have hkMerged : k ∈ mergedColumns (parseStage rows) := by
    unfold mergedColumns
    rw [List.mem_append, List.mem_filter]
    exact Or.inr ⟨hkOrig, by simp [hk]⟩
  have hkKept : k ∈ keptColumns (parseStage rows) := by
    unfold keptColumns
    rw [List.mem_filter]
    exact ⟨hkMerged, hany⟩
  have hkeptCount : (keptColumns (parseStage rows)).count k = 1 := by
    unfold keptColumns
    rw [count_filter_pos k _ hany]
    exact count_mergedColumns _ k hkOrig hk
  have hrow : (expandEventProperties (parseStage rows)).get ⟨i, hi2⟩
      = expandRow (parseStage rows) (parseEventDataRow (rows.get ⟨i, hi⟩)) := by
    unfold expandEventProperties
    simp [parseStage]
  refine ⟨hlk1, hpop, ?_, ?_⟩
  · rw [hrow]
    unfold expandRow
    rw [rowLookup_map_pair _ _ k hkKept]
    exact congrArg some (by rw [hcell]; rfl)
  · rw [hrow, names_expandRow]
    exact hkeptCount

/-- Witness for C3: after expansion the empty `TargetUserName` column is
filled with `"bob"` and occurs exactly once. -/
theorem claim_C3_witness :
    rowLookup ((expandEventProperties (parseStage [c3Row])).get
      ⟨0, by decide⟩) "TargetUserName" = some "bob"
    ∧ (((expandEventProperties (parseStage [c3Row])).get
      ⟨0, by decide⟩).map (·.1)).count "TargetUserName" = 1 := by
  have h := claim_C3 [c3Row] 0 (by decide) [("TargetUserName", "bob")]
    "TargetUserName" "bob" (by decide) (by decide) (by decide) (by decide)
    (by decide) (by decide)
  exact ⟨h.2.2.1, h.2.2.2⟩

end WinHostEvents
